import Mathlib

/-!
Verification development for the client-feature controller
(`src/unnamed/part_000`): query normalization (`prepQuery`, `resolveQuery`),
fingerprint / ETag computation (`calculateMeta`), the memoized resolver
(`featuresAndSegments`), the conditional list endpoint (`getAll`) and the
single-feature endpoint (`getFeatureToggle`).

External collaborators that are not part of the sources (the `hash-sum` and
`memoizee` npm dependencies, the Joi `querySchema`, `isAllProjects`/`ALL`
from the api-token module) are modelled from the specification; each such
definition carries a doc comment starting with `Modelled from the spec:`.
-/

/-- A JS-style optional query parameter as it arrives from the transport:
absent (`undefined`), a scalar string, or a list of strings. -/
inductive QueryParam where
  | absent
  | scalar (s : String)
  | list (l : List String)
deriving DecidableEq, Repr

/-- JS truthiness test used by the controller's `!param` checks: `undefined`
and the empty string are falsy; an array (even an empty one) is truthy. -/
def QueryParam.falsy : QueryParam → Bool
  | .absent => true
  | .scalar s => s == ""
  | .list _ => false

/-- JS truthiness for an optional string field (`undefined` and `''` falsy). -/
def optStrFalsy : Option String → Bool
  | none => true
  | some s => s == ""

/-- Function `paramToArray` (src/unnamed/part_000 lines 175-180): falsy values are
returned unchanged, arrays are returned unchanged, scalars are wrapped in a
singleton array. -/
def paramToArray (param : QueryParam) : QueryParam :=
  if param.falsy then param
  else
    match param with
    | .list l => .list l
    | .scalar s => .list [s]
    | .absent => .absent

/-- The raw filter object assembled by `resolveQuery` and handed to
`prepQuery`: `{ tag, project, namePrefix, environment, inlineSegmentConstraints }`.
The `namePrefix` field of the source is called `namePrefixParam` here. -/
structure RawQuery where
  tag : QueryParam
  project : QueryParam
  namePrefixParam : Option String
  environment : Option String
  inlineSegmentConstraints : Bool
deriving DecidableEq, Repr

/-- The query object after Joi validation, before tag splitting.  Absent
fields stay absent. -/
structure ValidatedQuery where
  tag : Option (List String)
  project : Option (List String)
  namePrefixParam : Option String
  environment : Option String
  inlineSegmentConstraints : Option Bool
deriving DecidableEq, Repr

/-- The canonical query descriptor produced by `prepQuery`: tags have been
split on `':'` into their parts.  The all-`none` value is the canonical
empty query `{}`. -/
structure PreparedQuery where
  tag : Option (List (List String))
  project : Option (List String)
  namePrefixParam : Option String
  environment : Option String
  inlineSegmentConstraints : Option Bool
deriving DecidableEq, Repr

/-- The canonical empty query: the object literal `{}`. -/
def emptyQuery : PreparedQuery :=
  { tag := none, project := none, namePrefixParam := none, environment := none
    inlineSegmentConstraints := none }

/-- Validation failures surfaced by the query schema. -/
inductive ValidationError where
  | notAnArray (field : String)
  | invalidItem (field : String)
deriving DecidableEq, Repr

/-- Splitting a character list on `':'`, with the semantics of JavaScript's
`String.prototype.split(':')`: `"" ↦ [""]`, `":" ↦ ["", ""]`. -/
def splitCharsOnColon : List Char → List (List Char)
  | [] => [[]]
  | c :: cs =>
    let rest := splitCharsOnColon cs
    if c = ':' then [] :: rest
    else
      match rest with
      | r :: rs => (c :: r) :: rs
      | [] => [[c]]

/-- JS splitting of a string on the colon character, as used by the
source's `q.split(':')`, as a Lean function on `String`. -/
def splitColon (s : String) : List String :=
  (splitCharsOnColon s.data).map String.mk

/-- Joining a list of strings with a separator (used by the fingerprint
serialization below). -/
def joinWith (sep : String) : List String → String
  | [] => ""
  | s :: rest => rest.foldl (fun acc t => acc ++ sep ++ t) s

/-- Modelled from the spec: tag filters must have the form `"type:value"`
(a separator with non-empty type and non-empty value); malformed filters
fail validation at schema level.  The Joi `querySchema` itself
(`schema/feature-schema`) is not among the sources. -/
def tagWellFormed (s : String) : Bool :=
  match splitColon s with
  | t :: rest =>
    match rest with
    | [] => false
    | _ :: _ => (t != "") && (joinWith ":" rest != "")
  | [] => false

/-- Modelled from the spec: schema validation of one list-valued filter.
Absent fields stay absent, a scalar where an array is expected is rejected,
and each list item must satisfy the item predicate. -/
def validateParamList (field : String) (p : QueryParam) (itemOk : String → Bool) :
    Except ValidationError (Option (List String)) :=
  match p with
  | .absent => .ok none
  | .scalar _ => .error (.notAnArray field)
  | .list l => if l.all itemOk then .ok (some l) else .error (.invalidItem field)

/-- The input object `{ tag: tagQuery, project: projectQuery, namePrefix,
environment, inlineSegmentConstraints }` passed to `querySchema.validateAsync`. -/
structure ValidateInput where
  tag : QueryParam
  project : QueryParam
  namePrefixParam : Option String
  environment : Option String
  inlineSegmentConstraints : Bool
deriving DecidableEq, Repr

/-- Modelled from the spec: `querySchema.validateAsync` — the Joi schema is
not among the sources.  Per the spec it rejects malformed tag filters and
non-array list filters; string fields and the boolean flag pass through,
absent fields stay absent. -/
def querySchemaValidate (inp : ValidateInput) : Except ValidationError ValidatedQuery :=
  match validateParamList "tag" inp.tag tagWellFormed,
        validateParamList "project" inp.project (fun _ => true) with
  | .ok tag, .ok project =>
    .ok { tag := tag, project := project, namePrefixParam := inp.namePrefixParam
          environment := inp.environment
          inlineSegmentConstraints := some inp.inlineSegmentConstraints }
  | .error e, _ => .error e
  | .ok _, .error e => .error e

/-- Function `prepQuery` (src/unnamed/part_000 lines 182-214): if every field of the
assembled filter object is falsy the function short-circuits to the literal
`{}`; otherwise the list-valued filters are array-normalized, the object is
validated, and tag strings are split on `':'`. -/
def prepQuery (q : RawQuery) : Except ValidationError PreparedQuery :=
  if q.tag.falsy && q.project.falsy && optStrFalsy q.namePrefixParam &&
      optStrFalsy q.environment && !q.inlineSegmentConstraints then
    .ok emptyQuery
  else
    let tagQuery := paramToArray q.tag
    let projectQuery := paramToArray q.project
    match querySchemaValidate
        { tag := tagQuery, project := projectQuery, namePrefixParam := q.namePrefixParam
          environment := q.environment
          inlineSegmentConstraints := q.inlineSegmentConstraints } with
    | .error e => .error e
    | .ok query =>
      .ok { tag := query.tag.map (fun ts => ts.map (fun s => splitColon s))
            project := query.project
            namePrefixParam := query.namePrefixParam
            environment := query.environment
            inlineSegmentConstraints := query.inlineSegmentConstraints }

/-- Modelled from the spec: the `ALL` sentinel of the api-token module
(authorization for all projects / all environments). -/
def ALL : String := "*"

/-- Modelled from the spec: `isAllProjects` — an API token is authorized for
all projects exactly when its project list is the singleton `[ALL]`. -/
def isAllProjects (projects : List String) : Bool :=
  projects == [ALL]

/-- An authenticated API client (the `ApiUser` case of `req.user`). -/
structure ApiUserT where
  projects : List String
  environment : String
deriving DecidableEq, Repr

/-- The request's user: an API user or any other principal. -/
inductive ReqUser where
  | apiUser (u : ApiUserT)
  | other
deriving DecidableEq, Repr

/-- The client-supplied query parameters of the request. -/
structure ClientQuery where
  tag : QueryParam
  project : QueryParam
  namePrefixParam : Option String
  environment : Option String
deriving DecidableEq, Repr

/-- The parts of the incoming request that the controller reads: the user,
the query parameters, the client capability check
`clientSpecService.requestSupportsSpec(req, 'segments')`, and the
`If-None-Match` header. -/
structure Req where
  user : ReqUser
  query : ClientQuery
  supportsSegmentsSpec : Bool
  ifNoneMatch : Option String
deriving DecidableEq, Repr

/-- Object construction step of `resolveQuery` (src/unnamed/part_000 lines
149-172): builds the override from the API user's token (project
restriction unless all-projects, environment unless `ALL`), computes
`inlineSegmentConstraints` from the client capability, and spreads
`{...query, ...override, inlineSegmentConstraints}` — override fields
replace client-supplied ones. -/
def resolveQueryRaw (req : Req) : RawQuery :=
  let overrideProject : Option (List String) :=
    match req.user with
    | .apiUser u => if isAllProjects u.projects then none else some u.projects
    | .other => none
  let overrideEnvironment : Option String :=
    match req.user with
    | .apiUser u => if u.environment == ALL then none else some u.environment
    | .other => none
  { tag := req.query.tag
    project :=
      match overrideProject with
      | some ps => .list ps
      | none => req.query.project
    namePrefixParam := req.query.namePrefixParam
    environment :=
      match overrideEnvironment with
      | some e => some e
      | none => req.query.environment
    inlineSegmentConstraints := !req.supportsSegmentsSpec }

/-- Normalization of the whole request: the spread object built by
`resolveQueryRaw` is validated and canonicalized by `prepQuery`. -/
def resolveQuery (req : Req) : Except ValidationError PreparedQuery :=
  prepQuery (resolveQueryRaw req)

/-- One hexadecimal digit character (`0`-`9`, `a`-`f`). -/
def hexDigitChar (n : Nat) : Char :=
  match n with
  | 0 => '0' | 1 => '1' | 2 => '2' | 3 => '3' | 4 => '4'
  | 5 => '5' | 6 => '6' | 7 => '7' | 8 => '8' | 9 => '9'
  | 10 => 'a' | 11 => 'b' | 12 => 'c' | 13 => 'd' | 14 => 'e' | _ => 'f'

/-- Hexadecimal digits of `n`, least significant first, with enough fuel. -/
def toHexAux : Nat → Nat → List Char
  | 0, _ => []
  | _ + 1, 0 => []
  | fuel + 1, n + 1 => hexDigitChar ((n + 1) % 16) :: toHexAux fuel ((n + 1) / 16)

/-- Left-pad a character list with `'0'` up to the given length (the `pad`
step of the fingerprint). -/
def padChars (l : List Char) (len : Nat) : List Char :=
  List.replicate (len - l.length) '0' ++ l

/-- A 32-bit value printed as a zero-padded 8-character hex string. -/
def hashHex (n : Nat) : String :=
  String.mk (padChars (toHexAux 8 (n % 4294967296)).reverse 8)

/-- Fold a 32-bit string hash over a character list (a general-purpose
non-cryptographic hash in the style of the source's deep-hash utility). -/
def foldHashChars (h : Nat) : List Char → Nat
  | [] => h
  | c :: cs => foldHashChars ((h * 31 + c.toNat) % 4294967296) cs

/-- Fold the hash over a string. -/
def foldHash (h : Nat) (s : String) : Nat :=
  foldHashChars h s.data

/-- Canonical serialization of one string (delimited so that distinct
descriptors serialize distinctly). -/
def serializeStr (s : String) : String :=
  "(" ++ s ++ ")"

def serializeOptStr : Option String → String
  | none => "_"
  | some s => serializeStr s

def serializeStrList (l : List String) : String :=
  "[" ++ joinWith "," (l.map serializeStr) ++ "]"

def serializeOptStrList : Option (List String) → String
  | none => "_"
  | some l => serializeStrList l

def serializeTagList : Option (List (List String)) → String
  | none => "_"
  | some ls => "[" ++ joinWith "," (ls.map serializeStrList) ++ "]"

def serializeOptBool : Option Bool → String
  | none => "_"
  | some true => "T"
  | some false => "F"

/-- Canonical serialization of a prepared query: fixed field order, absent
fields uniformly marked. -/
def canonicalSerialization (q : PreparedQuery) : String :=
  "t=" ++ serializeTagList q.tag ++
  ";p=" ++ serializeOptStrList q.project ++
  ";n=" ++ serializeOptStr q.namePrefixParam ++
  ";e=" ++ serializeOptStr q.environment ++
  ";i=" ++ serializeOptBool q.inlineSegmentConstraints

/-- Modelled from the spec: the Fingerprint Engine (`hashSum` from the
`hash-sum` npm dependency, whose source is not in the repository): a pure,
deterministic hash of the canonical query descriptor — an explicit canonical
serialization followed by a general-purpose non-cryptographic 32-bit hash,
printed as a zero-padded 8-character hex string, exactly the output shape of
the real utility. -/
def hashSum (q : PreparedQuery) : String :=
  hashHex (foldHash 0 (canonicalSerialization q))

/-- Decimal digit character for `n % 10`. -/
def decDigitChar (n : Nat) : Char :=
  match n with
  | 0 => '0' | 1 => '1' | 2 => '2' | 3 => '3' | 4 => '4'
  | 5 => '5' | 6 => '6' | 7 => '7' | 8 => '8' | _ => '9'

/-- Decimal digits of `n`, least significant first, with enough fuel. -/
def decRevAux : Nat → Nat → List Char
  | 0, _ => []
  | _ + 1, 0 => []
  | fuel + 1, n + 1 => decDigitChar ((n + 1) % 10) :: decRevAux fuel ((n + 1) / 10)

/-- Decimal rendering of a natural number, as the template literal
`\x24{revisionId}` renders the revision number. -/
def natDecString (n : Nat) : String :=
  if n = 0 then "0" else String.mk (decRevAux n n).reverse

/-- Numeric value of a decimal digit character (inverse of `decDigitChar`). -/
def decDigitVal (c : Char) : Nat :=
  match c with
  | '1' => 1 | '2' => 2 | '3' => 3 | '4' => 4 | '5' => 5
  | '6' => 6 | '7' => 7 | '8' => 8 | '9' => 9 | _ => 0

/-- Value of a least-significant-first decimal digit list. -/
def decValOfRev : List Char → Nat
  | [] => 0
  | c :: cs => decDigitVal c + 10 * decValOfRev cs

/-- The ETag builder of `calculateMeta`: the template literal
`"${queryHash}:${revisionId}"` — the fingerprint and the decimal revision
joined by `':'`, wrapped in double quotes. -/
def etagOf (queryHash : String) (revisionId : Nat) : String :=
  "\"" ++ queryHash ++ ":" ++ natDecString revisionId ++ "\""

/-- The metadata record computed per request. -/
structure IMeta where
  revisionId : Nat
  etag : String
  queryHash : String
deriving DecidableEq, Repr

/-- Function `calculateMeta` (src/unnamed/part_000 lines 266-275): reads the current
revision from the revision oracle (passed here as `revisionId`), hashes the
query, and builds the quoted validator string. -/
def calculateMeta (query : PreparedQuery) (revisionId : Nat) : IMeta :=
  let queryHash := hashSum query
  { revisionId := revisionId, etag := etagOf queryHash revisionId, queryHash := queryHash }

/-- One cache entry of the memoized resolver: the index of the underlying
resolution whose (possibly still pending) promise this entry holds, and the
insertion time.  Modelled from the spec: `memoizee` (an npm dependency, not
in the sources) caches the promise immediately on a miss, so concurrent
callers of the same key share one in-flight resolution, and an entry expires
`maxAge` after insertion. -/
structure EntryInfo where
  resolutionId : Nat
  insertedAt : Nat
deriving DecidableEq, Repr

/-- The state of the memoized resolver: the cache entries (most recent
first; lookups take the first match, so an insert shadows older entries of
the same key) and the number of underlying resolutions started so far.
Each resolution is one invocation of `resolveFeaturesAndSegments`, i.e.
exactly one `getClientFeatures` call plus one `getActive` segments call. -/
structure MemoState where
  entries : List (String × EntryInfo)
  resolutions : Nat
deriving DecidableEq, Repr

/-- The memo state at controller construction: empty cache, no resolutions. -/
def initialMemoState : MemoState :=
  { entries := [], resolutions := 0 }

/-- First cache entry for a key, if any. -/
def lookupEntry (entries : List (String × EntryInfo)) (key : String) : Option EntryInfo :=
  match entries with
  | [] => none
  | e :: rest => if e.1 = key then some e.2 else lookupEntry rest key

/-- The resolution id cached for `key`, provided its entry has not expired
(`memoizee` drops an entry once `maxAge` has elapsed since insertion). -/
def lookupFresh (maxAge : Nat) (entries : List (String × EntryInfo)) (key : String)
    (now : Nat) : Option Nat :=
  match lookupEntry entries key with
  | some e => if now < e.insertedAt + maxAge then some e.resolutionId else none
  | none => none

/-- One call of the memoized function: a fresh entry for the key is a hit
(the caller awaits the cached resolution); otherwise a new underlying
resolution is started and its promise is cached immediately, keyed by the
normalized key. -/
def memoCall (maxAge : Nat) (key : String) (now : Nat) (st : MemoState) : Nat × MemoState :=
  match lookupFresh maxAge st.entries key now with
  | some i => (i, st)
  | none =>
    (st.resolutions,
     { entries := (key, { resolutionId := st.resolutions, insertedAt := now }) :: st.entries
       resolutions := st.resolutions + 1 })

/-- Function `featuresAndSegments` (src/unnamed/part_000 lines 121-137): with caching
enabled it is `memoizee((query, etag) => resolveFeaturesAndSegments(query))`
whose `normalizer` returns `args[1]` — the cache key is the `etag` argument,
not the query; with caching disabled every call starts its own underlying
resolution.  Returns the resolution id the caller awaits. -/
def featuresAndSegmentsCall (cachingEnabled : Bool) (maxAge : Nat) (_query : PreparedQuery)
    (etag : String) (now : Nat) (st : MemoState) : Nat × MemoState :=
  if cachingEnabled then memoCall maxAge etag now st
  else (st.resolutions, { entries := st.entries, resolutions := st.resolutions + 1 })

/-- A sequence of list-endpoint resolver invocations at one revision: each
caller computes its own validator via `calculateMeta` and then calls
`featuresAndSegments(query, etag)`, exactly as `getAll` does.  Returns the
resolution ids received by the callers, in order. -/
def getAllResolverCalls (cachingEnabled : Bool) (maxAge revisionId : Nat) :
    List (PreparedQuery × Nat) → MemoState → List Nat × MemoState
  | [], st => ([], st)
  | c :: cs, st =>
    let one := featuresAndSegmentsCall cachingEnabled maxAge c.1
      (calculateMeta c.1 revisionId).etag c.2 st
    let rest := getAllResolverCalls cachingEnabled maxAge revisionId cs one.2
    (one.1 :: rest.1, rest.2)

/-- A client-visible feature toggle (only the fields the controller reads). -/
structure Feature where
  name : String
  enabled : Bool
deriving DecidableEq, Repr

/-- An active segment (opaque to the controller). -/
structure Segment where
  segmentId : Nat
deriving DecidableEq, Repr

/-- A failure of one of the external stores. -/
inductive StoreError where
  | ioError (msg : String)
deriving DecidableEq, Repr

/-- Function `resolveFeaturesAndSegments` (src/unnamed/part_000 lines
140-147): `Promise.all` of `featureToggleServiceV2.getClientFeatures(query)`
and `segmentService.getActive()`.  Both store reads are started; the
combined promise resolves with the pair when both succeed and rejects as
soon as either fails. -/
def resolveFeaturesAndSegments
    (getClientFeatures : Option PreparedQuery → Except StoreError (List Feature))
    (getActiveSegments : Except StoreError (List Segment))
    (query : Option PreparedQuery) :
    Except StoreError (List Feature × List Segment) :=
  match getClientFeatures query, getActiveSegments with
  | .ok features, .ok segments => .ok (features, segments)
  | .error e, _ => .error e
  | .ok _, .error e => .error e

/-- Modelled from the spec: when a shared resolution fails, its rejected
promise is removed from the cache (no half-populated entry remains for the
key), so the next request retries cleanly. -/
def rejectSettle (st : MemoState) (key : String) : MemoState :=
  { entries := st.entries.filter (fun e => !(e.1 == key)), resolutions := st.resolutions }

/-- The response payload of the list endpoint, as far as the controller
shapes it: the protocol version, the resolution whose result is rendered,
the normalized query echoed back, whether top-level segments are included
(clients that support the `segments` capability) and the metadata. -/
structure ClientFeaturesPayload where
  version : Nat
  resolutionId : Nat
  query : PreparedQuery
  segmentsIncluded : Bool
  meta : IMeta
deriving DecidableEq, Repr

/-- The observable outcome of one list-endpoint request: status, ETag
header, body, memo state afterwards, and whether the memoized resolver was
invoked. -/
structure GetAllOutcome where
  status : Nat
  etagHeader : Option String
  body : Option ClientFeaturesPayload
  st : MemoState
  resolverInvoked : Bool
deriving DecidableEq, Repr

/-- Function `getAll` (src/unnamed/part_000 lines 216-264): normalizes the
query, computes the metadata (reading `revisionId` from the revision
oracle), always sets the ETag header, answers `304` with an empty body when
the client's `If-None-Match` equals the fresh etag, and otherwise invokes
the memoized resolver and responds `200` with the full payload. -/
def getAll (cachingEnabled : Bool) (maxAge revisionId : Nat) (req : Req) (now : Nat)
    (st : MemoState) : Except ValidationError GetAllOutcome :=
  match resolveQuery req with
  | .error e => .error e
  | .ok query =>
    let userVersion := req.ifNoneMatch
    let meta := calculateMeta query revisionId
    if userVersion = some meta.etag then
      .ok { status := 304, etagHeader := some meta.etag, body := none, st := st
            resolverInvoked := false }
    else
      let one := featuresAndSegmentsCall cachingEnabled maxAge query meta.etag now st
      .ok { status := 200, etagHeader := some meta.etag
            body := some { version := 2, resolutionId := one.1, query := query
                           segmentsIncluded := req.supportsSegmentsSpec, meta := meta }
            st := one.2, resolverInvoked := true }

/-- Errors of the single-feature endpoint. -/
inductive FeatureError where
  | validation (e : ValidationError)
  | notFound (msg : String)
deriving DecidableEq, Repr

/-- The observable success outcome of the single-feature endpoint. -/
structure FeatureToggleOutcome where
  status : Nat
  etagHeader : Option String
  body : Feature
deriving DecidableEq, Repr

/-- Function `getFeatureToggle` (src/unnamed/part_000 lines 277-297):
normalizes the query, replaces its `namePrefix` by the requested feature
name, queries the store directly (never the memoized resolver), and answers
with the first toggle whose name equals the requested name exactly, or a
not-found error.  The memo state is threaded through unchanged and the list
of store queries issued is returned, to record that the cache is never
consulted and the store is hit directly. -/
def getFeatureToggle (store : PreparedQuery → List Feature) (req : Req)
    (featureName : String) (st : MemoState) :
    Except FeatureError FeatureToggleOutcome × MemoState × List PreparedQuery :=
  match resolveQuery req with
  | .error e => (.error (.validation e), st, [])
  | .ok featureQuery =>
    let q := { featureQuery with namePrefixParam := some featureName }
    let toggles := store q
    match toggles.find? (fun t => t.name == featureName) with
    | none => (.error (.notFound ("Could not find feature toggle " ++ featureName)), st, [q])
    | some toggle => (.ok { status := 200, etagHeader := none, body := toggle }, st, [q])

instance {ε α : Type} [DecidableEq ε] [DecidableEq α] : DecidableEq (Except ε α) := fun x y =>
  match x, y with
  | .error a, .error b =>
    if h : a = b then isTrue (congrArg Except.error h)
    else isFalse (fun hc => h (Except.error.inj hc))
  | .ok a, .ok b =>
    if h : a = b then isTrue (congrArg Except.ok h)
    else isFalse (fun hc => h (Except.ok.inj hc))
  | .error _, .ok _ => isFalse (fun hc => Except.noConfusion hc)
  | .ok _, .error _ => isFalse (fun hc => Except.noConfusion hc)

/-- The raw query of the order-sensitivity counterexample: project filter
`["A", "B"]`, nothing else. -/
def rawProjectAB : RawQuery :=
  { tag := .absent, project := .list ["A", "B"], namePrefixParam := none
    environment := none, inlineSegmentConstraints := false }

/-- The same raw query with the project list in the other order. -/
def rawProjectBA : RawQuery :=
  { tag := .absent, project := .list ["B", "A"], namePrefixParam := none
    environment := none, inlineSegmentConstraints := false }

/-- The canonical descriptor `prepQuery` produces for `rawProjectAB`. -/
def preparedProjectAB : PreparedQuery :=
  { tag := none, project := some ["A", "B"], namePrefixParam := none
    environment := none, inlineSegmentConstraints := some false }

/-- The canonical descriptor `prepQuery` produces for `rawProjectBA`. -/
def preparedProjectBA : PreparedQuery :=
  { tag := none, project := some ["B", "A"], namePrefixParam := none
    environment := none, inlineSegmentConstraints := some false }

/-- The raw query of a legacy client (no native segment support, so
`inlineSegmentConstraints` is computed as `true`) with every optional
filter absent. -/
def rawLegacyEmpty : RawQuery :=
  { tag := .absent, project := .absent, namePrefixParam := none
    environment := none, inlineSegmentConstraints := true }

/-! ## Helper lemmas -/

theorem decDigitVal_decDigitChar (k : Nat) (hk : k < 10) :
    decDigitVal (decDigitChar k) = k := by
  interval_cases k <;> rfl

theorem decValOfRev_decRevAux (fuel : Nat) :
    ∀ n : Nat, n ≤ fuel → decValOfRev (decRevAux fuel n) = n := by
  induction fuel with
  | zero =>
    intro n hn
    interval_cases n
    rfl
  | succ fuel ih =>
    intro n hn
    match n with
    | 0 => rfl
    | m + 1 =>
      have hdivlt : (m + 1) / 10 < m + 1 := Nat.div_lt_self (Nat.succ_pos m) (by omega)
      have hdiv : (m + 1) / 10 ≤ fuel := by omega
      have hmod : (m + 1) % 10 < 10 := Nat.mod_lt _ (by omega)
      show decDigitVal (decDigitChar ((m + 1) % 10)) + 10 * decValOfRev (decRevAux fuel ((m + 1) / 10)) = m + 1
      rw [decDigitVal_decDigitChar _ hmod, ih _ hdiv, Nat.mod_add_div]

theorem natDecString_injective (m n : Nat) (h : natDecString m = natDecString n) : m = n := by
  have hdata := String.ext_iff.mp h
  by_cases hm : m = 0 <;> by_cases hn : n = 0
  · omega
  · exfalso
    simp only [natDecString, hm, hn, if_pos, if_neg, if_true] at hdata
    have hlist : ['0'] = (decRevAux n n).reverse := hdata
    have hrev : (decRevAux n n) = ['0'] := by
      have := congrArg List.reverse hlist
      simpa using this.symm
    have := decValOfRev_decRevAux n n (le_refl n)
    rw [hrev] at this
    simp [decValOfRev, decDigitVal] at this
    omega
  · exfalso
    simp only [natDecString, hm, hn, if_pos, if_neg, if_true] at hdata
    have hlist : (decRevAux m m).reverse = ['0'] := hdata
    have hrev : (decRevAux m m) = ['0'] := by
      have := congrArg List.reverse hlist
      simpa using this
    have := decValOfRev_decRevAux m m (le_refl m)
    rw [hrev] at this
    simp [decValOfRev, decDigitVal] at this
    omega
  · simp only [natDecString, hm, hn, if_neg] at hdata
    have hrev : decRevAux m m = decRevAux n n := by
      have : (decRevAux m m).reverse = (decRevAux n n).reverse := hdata
      exact List.reverse_inj.mp this
    have h1 := decValOfRev_decRevAux m m (le_refl m)
    have h2 := decValOfRev_decRevAux n n (le_refl n)
    rw [hrev] at h1
    omega

theorem append_colon_inj : ∀ (a b u v : List Char), (∀ c ∈ a, c ≠ ':') → (∀ c ∈ b, c ≠ ':') →
    a ++ ':' :: u = b ++ ':' :: v → a = b ∧ u = v := by
  intro a
  induction a with
  | nil =>
    intro b u v _ hb h
    match b with
    | [] => simpa using h
    | d :: bt =>
      simp only [List.nil_append, List.cons_append, List.cons.injEq] at h
      exact absurd h.1.symm (hb d (by simp))
  | cons c ct ih =>
    intro b u v ha hb h
    match b with
    | [] =>
      simp only [List.nil_append, List.cons_append, List.cons.injEq] at h
      exact absurd h.1 (ha c (by simp))
    | d :: bt =>
      simp only [List.cons_append, List.cons.injEq] at h
      obtain ⟨hcd, hrest⟩ := h
      have hct : ∀ x ∈ ct, x ≠ ':' := fun x hx => ha x (by simp [hx])
      have hbt : ∀ x ∈ bt, x ≠ ':' := fun x hx => hb x (by simp [hx])
      obtain ⟨h1, h2⟩ := ih bt u v hct hbt hrest
      exact ⟨by rw [hcd, h1], h2⟩

theorem append_singleton_inj (l1 l2 : List Char) (x : Char) (h : l1 ++ [x] = l2 ++ [x]) :
    l1 = l2 :=
  List.append_cancel_right h

theorem hexDigitChar_ne_colon (n : Nat) : hexDigitChar n ≠ ':' := by
  unfold hexDigitChar
  split <;> decide

theorem toHexAux_ne_colon : ∀ (fuel n : Nat), ∀ c ∈ toHexAux fuel n, c ≠ ':' := by
  intro fuel
  induction fuel with
  | zero => intro n c hc; simp [toHexAux] at hc
  | succ fuel ih =>
    intro n c hc
    match n with
    | 0 => simp [toHexAux] at hc
    | m + 1 =>
      simp only [toHexAux, List.mem_cons] at hc
      rcases hc with hc | hc
      · rw [hc]; exact hexDigitChar_ne_colon _
      · exact ih _ c hc

theorem hashSum_ne_colon (q : PreparedQuery) : ∀ c ∈ (hashSum q).data, c ≠ ':' := by
  intro c hc
  simp only [hashSum, hashHex, padChars] at hc
  have hc' : c ∈ List.replicate (8 - (toHexAux 8 (foldHash 0 (canonicalSerialization q) % 4294967296)).reverse.length) '0' ++
      (toHexAux 8 (foldHash 0 (canonicalSerialization q) % 4294967296)).reverse := hc
  rcases List.mem_append.mp hc' with hrep | hrev
  · rw [List.eq_of_mem_replicate hrep]; decide
  · exact toHexAux_ne_colon _ _ c (List.mem_reverse.mp hrev)

theorem strData_append (s t : String) : (s ++ t).data = s.data ++ t.data :=
  String.data_append s t

theorem etagOf_data (h : String) (r : Nat) :
    (etagOf h r).data = '"' :: (h.data ++ ':' :: ((natDecString r).data ++ ['"'])) := by
  simp [etagOf, strData_append]

theorem etagOf_eq_iff (h1 h2 : String) (r1 r2 : Nat)
    (hc1 : ∀ c ∈ h1.data, c ≠ ':') (hc2 : ∀ c ∈ h2.data, c ≠ ':') :
    etagOf h1 r1 = etagOf h2 r2 ↔ (h1 = h2 ∧ r1 = r2) := by
  constructor
  · intro h
    have hd := String.ext_iff.mp h
    rw [etagOf_data, etagOf_data] at hd
    have htail := (List.cons.injEq _ _ _ _).mp hd |>.2
    obtain ⟨hhash, hdec⟩ := append_colon_inj _ _ _ _ hc1 hc2 htail
    have hdec' := append_singleton_inj _ _ _ hdec
    refine ⟨String.ext_iff.mpr hhash, natDecString_injective r1 r2 (String.ext_iff.mpr hdec')⟩
  · rintro ⟨rfl, rfl⟩
    rfl

theorem querySchemaValidate_ok_fields (inp : ValidateInput) (vq : ValidatedQuery)
    (h : querySchemaValidate inp = .ok vq) :
    vq.namePrefixParam = inp.namePrefixParam ∧ vq.environment = inp.environment ∧
    vq.inlineSegmentConstraints = some inp.inlineSegmentConstraints ∧
    (∀ ps, inp.project = .list ps → vq.project = some ps) := by
  rcases h1 : validateParamList "tag" inp.tag tagWellFormed with e | tagv <;>
    rcases h2 : validateParamList "project" inp.project (fun _ => true) with e2 | projv <;>
      simp [querySchemaValidate, h1, h2] at h
  subst h
  refine ⟨rfl, rfl, rfl, ?_⟩
  intro ps hps
  rw [hps] at h2
  simp [validateParamList] at h2
  simp [h2]

theorem prepQuery_ok_fields (rq : RawQuery) (pq : PreparedQuery) (h : prepQuery rq = .ok pq) :
    (∀ ps, rq.project = .list ps → pq.project = some ps) ∧
    (∀ e, rq.environment = some e → e ≠ "" → pq.environment = some e) := by
  simp only [prepQuery] at h
  split at h
  · rename_i hsc
    simp only [Except.ok.injEq] at h
    subst h
    constructor
    · intro ps hps
      exfalso
      rw [hps] at hsc
      simp [QueryParam.falsy] at hsc
    · intro e he hne
      exfalso
      rw [he] at hsc
      simp [optStrFalsy, beq_eq_false_iff_ne.mpr hne] at hsc
  · split at h
    · simp at h
    · rename_i vq hv
      simp only [Except.ok.injEq] at h
      subst h
      obtain ⟨hnp, henv, hisc, hproj⟩ := querySchemaValidate_ok_fields _ _ hv
      constructor
      · intro ps hps
        have hpa : paramToArray rq.project = .list ps := by
          rw [hps]; simp [paramToArray, QueryParam.falsy]
        simp [hproj ps hpa]
      · intro e he hne
        simp [henv, he]

theorem getAllResolverCalls_hits (maxAge revisionId : Nat) (h0 : String) (idv tIns : Nat)
    (rest : List (String × EntryInfo)) (resol : Nat) :
    ∀ calls : List (PreparedQuery × Nat),
    (∀ c ∈ calls, hashSum c.1 = h0) →
    (∀ c ∈ calls, c.2 < tIns + maxAge) →
    getAllResolverCalls true maxAge revisionId calls
        ⟨(etagOf h0 revisionId, ⟨idv, tIns⟩) :: rest, resol⟩
      = (List.replicate calls.length idv,
         ⟨(etagOf h0 revisionId, ⟨idv, tIns⟩) :: rest, resol⟩) := by
  intro calls
  induction calls with
  | nil => intro _ _; rfl
  | cons c cs ih =>
    intro hfp ht
    have hc : hashSum c.1 = h0 := hfp c (by simp)
    have htc : c.2 < tIns + maxAge := ht c (by simp)
    have hone : featuresAndSegmentsCall true maxAge c.1 (calculateMeta c.1 revisionId).etag c.2
        ⟨(etagOf h0 revisionId, ⟨idv, tIns⟩) :: rest, resol⟩
        = (idv, ⟨(etagOf h0 revisionId, ⟨idv, tIns⟩) :: rest, resol⟩) := by
      simp [featuresAndSegmentsCall, memoCall, lookupFresh, lookupEntry, calculateMeta, hc, htc]
    have hrest := ih (fun x hx => hfp x (by simp [hx])) (fun x hx => ht x (by simp [hx]))
    simp [getAllResolverCalls, hone, hrest, List.replicate_succ]

/-! ## Claim theorems -/

/-- C1, counterexample: the memoized resolver's cache is NOT keyed on the
fingerprint alone.  Two resolver calls with the same query (hence the same
fingerprint) made at times 0 and 1 — well within one TTL window of
600000 ms — but at revisions 1 and 2 do not hit the same cache entry: the
second call receives a different resolution id, and two underlying
resolutions have been started. -/
theorem memo_cache_revision_miss_cex :
    (featuresAndSegmentsCall true 600000 emptyQuery (calculateMeta emptyQuery 2).etag 1
        (featuresAndSegmentsCall true 600000 emptyQuery (calculateMeta emptyQuery 1).etag 0
          initialMemoState).2).1
      ≠ (featuresAndSegmentsCall true 600000 emptyQuery (calculateMeta emptyQuery 1).etag 0
          initialMemoState).1 ∧
    (featuresAndSegmentsCall true 600000 emptyQuery (calculateMeta emptyQuery 2).etag 1
        (featuresAndSegmentsCall true 600000 emptyQuery (calculateMeta emptyQuery 1).etag 0
          initialMemoState).2).2.resolutions = 2 := by
  decide

/-- C1, amended: the cache of the memoized resolver is keyed on the full
validator (fingerprint plus revision), because `memoizee`'s normalizer
returns the `etag` argument.  Within one TTL window a second resolver call
hits the first call's cache entry iff its fingerprint AND revision both
match; the number of underlying resolutions is 1 on a hit and 2 otherwise —
in particular a revision change within the TTL window forces a fresh
resolution. -/
theorem cache_keyed_on_full_validator (q1 q2 : PreparedQuery) (r1 r2 maxAge t1 t2 : Nat)
    (ht : t2 < t1 + maxAge) :
    ((featuresAndSegmentsCall true maxAge q2 (calculateMeta q2 r2).etag t2
        (featuresAndSegmentsCall true maxAge q1 (calculateMeta q1 r1).etag t1
          initialMemoState).2).1
      = (featuresAndSegmentsCall true maxAge q1 (calculateMeta q1 r1).etag t1
          initialMemoState).1
      ↔ (hashSum q1 = hashSum q2 ∧ r1 = r2)) ∧
    (featuresAndSegmentsCall true maxAge q2 (calculateMeta q2 r2).etag t2
        (featuresAndSegmentsCall true maxAge q1 (calculateMeta q1 r1).etag t1
          initialMemoState).2).2.resolutions
      = if hashSum q1 = hashSum q2 ∧ r1 = r2 then 1 else 2 := by
  have hiff := etagOf_eq_iff (hashSum q1) (hashSum q2) r1 r2
    (hashSum_ne_colon q1) (hashSum_ne_colon q2)
  have hfirst : featuresAndSegmentsCall true maxAge q1 (calculateMeta q1 r1).etag t1
      initialMemoState
      = (0, ⟨[(etagOf (hashSum q1) r1, ⟨0, t1⟩)], 1⟩) := by
    simp [featuresAndSegmentsCall, memoCall, lookupFresh, lookupEntry, initialMemoState,
      calculateMeta]
  rw [hfirst]
  by_cases he : etagOf (hashSum q1) r1 = etagOf (hashSum q2) r2
  · have hcond := hiff.mp he
    simp [featuresAndSegmentsCall, memoCall, lookupFresh, lookupEntry, calculateMeta, he, ht,
      hcond]
  · have hcond : ¬(hashSum q1 = hashSum q2 ∧ r1 = r2) := fun hc => he (hiff.mpr hc)
    simp [featuresAndSegmentsCall, memoCall, lookupFresh, lookupEntry, calculateMeta, he, hcond]

/-- Witness for C1's amended theorem at a concrete input: same query, TTL
window 600000 ms, revisions 1 and 2 — two underlying resolutions. -/
theorem cache_keyed_on_full_validator_witness :
    (featuresAndSegmentsCall true 600000 emptyQuery (calculateMeta emptyQuery 2).etag 1
        (featuresAndSegmentsCall true 600000 emptyQuery (calculateMeta emptyQuery 1).etag 0
          initialMemoState).2).2.resolutions
      = if hashSum emptyQuery = hashSum emptyQuery ∧ 1 = 2 then 1 else 2 :=
  (cache_keyed_on_full_validator emptyQuery emptyQuery 1 2 600000 0 1 (by decide)).2

/-- C2: with caching enabled, N ≥ 2 resolver calls for the same fingerprint
and revision (each caller computing its validator and calling the memoized
resolver, as `getAll` does), all issued within the freshness window of the
first call and while no unexpired cache entry exists for the key, result in
exactly one underlying resolution — one `getClientFeatures` plus one
`getActive` store call — and every caller receives the same resolution id,
hence equal results. -/
theorem memoized_resolver_dedup (maxAge revisionId : Nat) (st : MemoState)
    (q0 : PreparedQuery) (t0 : Nat) (calls : List (PreparedQuery × Nat))
    (_hN : 1 ≤ calls.length)
    (hfp : ∀ c ∈ calls, hashSum c.1 = hashSum q0)
    (ht : ∀ c ∈ calls, c.2 < t0 + maxAge)
    (hfresh : lookupFresh maxAge st.entries (calculateMeta q0 revisionId).etag t0 = none) :
    (getAllResolverCalls true maxAge revisionId ((q0, t0) :: calls) st).1
      = List.replicate (calls.length + 1) st.resolutions ∧
    (getAllResolverCalls true maxAge revisionId ((q0, t0) :: calls) st).2.resolutions
      = st.resolutions + 1 := by
  have hone : featuresAndSegmentsCall true maxAge q0 (calculateMeta q0 revisionId).etag t0 st
      = (st.resolutions,
         ⟨(etagOf (hashSum q0) revisionId, ⟨st.resolutions, t0⟩) :: st.entries,
          st.resolutions + 1⟩) := by
    have hfresh' : lookupFresh maxAge st.entries (etagOf (hashSum q0) revisionId) t0 = none :=
      hfresh
    simp [featuresAndSegmentsCall, memoCall, calculateMeta, hfresh']
  have hrest := getAllResolverCalls_hits maxAge revisionId (hashSum q0) st.resolutions t0
    st.entries (st.resolutions + 1) calls hfp ht
  constructor
  · simp [getAllResolverCalls, hone, hrest, List.replicate_succ]
  · simp [getAllResolverCalls, hone, hrest]

/-- Witness for C2 at a concrete input: two concurrent callers, empty cache,
TTL 1000 ms, revision 5 — one resolution, both callers get id 0. -/
theorem memoized_resolver_dedup_witness :
    (getAllResolverCalls true 1000 5 [(emptyQuery, 0), (emptyQuery, 1)] initialMemoState).1
      = List.replicate 2 initialMemoState.resolutions ∧
    (getAllResolverCalls true 1000 5 [(emptyQuery, 0), (emptyQuery, 1)]
        initialMemoState).2.resolutions
      = initialMemoState.resolutions + 1 :=
  memoized_resolver_dedup 1000 5 initialMemoState emptyQuery 0 [(emptyQuery, 1)]
    (by decide) (by decide) (by decide) (by decide)

/-- C3: on the list endpoint, for every request whose query normalizes
successfully, the response produced by `getAll` carries the freshly
computed validator in the ETag header on every path, and it is a 304
not-modified response with empty body and no resolver invocation exactly
when the client-supplied `If-None-Match` validator equals the freshly
computed validator. -/
theorem getAll_not_modified_iff (cachingEnabled : Bool) (maxAge revisionId now : Nat)
    (st : MemoState) (req : Req) (q : PreparedQuery)
    (hq : resolveQuery req = .ok q) :
    ∃ out, getAll cachingEnabled maxAge revisionId req now st = .ok out ∧
      out.etagHeader = some (calculateMeta q revisionId).etag ∧
      ((out.status = 304 ∧ out.body = none ∧ out.resolverInvoked = false) ↔
        req.ifNoneMatch = some (calculateMeta q revisionId).etag) := by
  by_cases h : req.ifNoneMatch = some (calculateMeta q revisionId).etag
  · refine ⟨{ status := 304, etagHeader := some (calculateMeta q revisionId).etag, body := none
              st := st, resolverInvoked := false }, ?_, rfl, by simp [h]⟩
    simp [getAll, hq, h]
  · refine ⟨{ status := 200, etagHeader := some (calculateMeta q revisionId).etag
              body := some { version := 2
                             resolutionId := (featuresAndSegmentsCall cachingEnabled maxAge q
                               (calculateMeta q revisionId).etag now st).1
                             query := q, segmentsIncluded := req.supportsSegmentsSpec
                             meta := calculateMeta q revisionId }
              st := (featuresAndSegmentsCall cachingEnabled maxAge q
                (calculateMeta q revisionId).etag now st).2
              resolverInvoked := true }, ?_, rfl, by simp [h]⟩
    simp [getAll, hq, h]

/-- Witness for C3 at a concrete input: a request with no `If-None-Match`
header and an empty query gets a response whose ETag header is the fresh
validator and which is not a 304. -/
theorem getAll_not_modified_iff_witness :
    ∃ out, getAll true 600000 7
        { user := .other
          query := { tag := .absent, project := .absent, namePrefixParam := none
                     environment := none }
          supportsSegmentsSpec := true, ifNoneMatch := none } 0 initialMemoState = .ok out ∧
      out.etagHeader = some (calculateMeta emptyQuery 7).etag ∧
      ((out.status = 304 ∧ out.body = none ∧ out.resolverInvoked = false) ↔
        ({ user := .other
           query := { tag := .absent, project := .absent, namePrefixParam := none
                      environment := none }
           supportsSegmentsSpec := true, ifNoneMatch := none } : Req).ifNoneMatch
          = some (calculateMeta emptyQuery 7).etag) :=
  getAll_not_modified_iff true 600000 7 0 initialMemoState
    { user := .other
      query := { tag := .absent, project := .absent, namePrefixParam := none
                 environment := none }
      supportsSegmentsSpec := true, ifNoneMatch := none } emptyQuery (by decide)

/-- C4: the validator computed by `calculateMeta` is the query's fingerprint
and the decimal revision number joined by `':'` and wrapped in double
quotes; consequently, for a fixed query, validators computed at two
different revision-oracle values are unequal, and two validators are equal
iff both fingerprint and revision match exactly. -/
theorem calculateMeta_validator (q1 q2 : PreparedQuery) (r1 r2 : Nat) :
    (calculateMeta q1 r1).etag
      = "\"" ++ (calculateMeta q1 r1).queryHash ++ ":" ++ natDecString r1 ++ "\"" ∧
    (r1 ≠ r2 → (calculateMeta q1 r1).etag ≠ (calculateMeta q1 r2).etag) ∧
    ((calculateMeta q1 r1).etag = (calculateMeta q2 r2).etag
      ↔ (hashSum q1 = hashSum q2 ∧ r1 = r2)) := by
  have hiff := etagOf_eq_iff (hashSum q1) (hashSum q2) r1 r2
    (hashSum_ne_colon q1) (hashSum_ne_colon q2)
  have hiff1 := etagOf_eq_iff (hashSum q1) (hashSum q1) r1 r2
    (hashSum_ne_colon q1) (hashSum_ne_colon q1)
  refine ⟨rfl, ?_, hiff⟩
  intro hne he
  exact hne (hiff1.mp he).2

/-- Witness for C4 at a concrete input: the fingerprint of the empty query
at revisions 1 and 2 gives unequal validators. -/
theorem calculateMeta_validator_witness :
    (calculateMeta emptyQuery 1).etag ≠ (calculateMeta emptyQuery 2).etag :=
  (calculateMeta_validator emptyQuery emptyQuery 1 2).2.1 (by decide)

/-- C5, counterexample: normalization is NOT order-independent for
list-valued filters.  Two semantically equivalent raw queries whose project
lists are `["A", "B"]` and `["B", "A"]` normalize to structurally different
canonical descriptors (the lists are not sorted before hashing) and the
fingerprint engine produces different fingerprints for them. -/
theorem prepQuery_order_dependent_cex :
    prepQuery rawProjectAB = .ok preparedProjectAB ∧
    prepQuery rawProjectBA = .ok preparedProjectBA ∧
    preparedProjectAB ≠ preparedProjectBA ∧
    hashSum preparedProjectAB ≠ hashSum preparedProjectBA := by
  decide

/-- C5, amended: normalization canonicalizes the scalar-versus-list
representation — a non-empty scalar filter and its singleton list produce
identical canonical descriptors (hence identical fingerprints), for both
the project and the tag filter — but list element order is preserved, not
sorted, so order-permuted lists normalize to different descriptors. -/
theorem prepQuery_scalar_list_canonical (s : String) (hs : s ≠ "") (tagp projp : QueryParam)
    (np env : Option String) (isc : Bool) :
    prepQuery { tag := tagp, project := .scalar s, namePrefixParam := np
                environment := env, inlineSegmentConstraints := isc }
      = prepQuery { tag := tagp, project := .list [s], namePrefixParam := np
                    environment := env, inlineSegmentConstraints := isc } ∧
    prepQuery { tag := .scalar s, project := projp, namePrefixParam := np
                environment := env, inlineSegmentConstraints := isc }
      = prepQuery { tag := .list [s], project := projp, namePrefixParam := np
                    environment := env, inlineSegmentConstraints := isc } := by
  have hb : (s == "") = false := beq_eq_false_iff_ne.mpr hs
  constructor <;> simp [prepQuery, paramToArray, QueryParam.falsy, hb]

/-- Witness for C5's amended theorem at a concrete input: project filter
`"A"` as a scalar and as the singleton list `["A"]` normalize identically
(and similarly for the tag filter `"colour:red"`). -/
theorem prepQuery_scalar_list_canonical_witness :
    prepQuery { tag := .absent, project := .scalar "A", namePrefixParam := none
                environment := none, inlineSegmentConstraints := false }
      = prepQuery { tag := .absent, project := .list ["A"], namePrefixParam := none
                    environment := none, inlineSegmentConstraints := false } ∧
    prepQuery { tag := .scalar "A", project := .absent, namePrefixParam := none
                environment := none, inlineSegmentConstraints := false }
      = prepQuery { tag := .list ["A"], project := .absent, namePrefixParam := none
                    environment := none, inlineSegmentConstraints := false } :=
  prepQuery_scalar_list_canonical "A" (by decide) .absent .absent none none false

/-- C6, counterexample: a raw query with every optional filter absent does
NOT short-circuit to the canonical empty query when the computed
`inlineSegmentConstraints` flag is `true` (a legacy client without native
segment support); normalization then returns a descriptor that records the
flag instead of the canonical `{}`. -/
theorem prepQuery_legacy_empty_cex :
    prepQuery rawLegacyEmpty ≠ .ok emptyQuery ∧
    prepQuery rawLegacyEmpty
      = .ok { tag := none, project := none, namePrefixParam := none, environment := none
              inlineSegmentConstraints := some true } := by
  decide

/-- C6, amended: for every raw query in which every optional filter is
absent or the empty string (JS-falsy) AND the computed
`inlineSegmentConstraints` flag is `false`, normalization short-circuits to
the one canonical empty-query value, so repeated such requests always
produce the same fingerprint. -/
theorem prepQuery_empty_shortcircuit (rq : RawQuery)
    (h1 : rq.tag.falsy = true) (h2 : rq.project.falsy = true)
    (h3 : optStrFalsy rq.namePrefixParam = true) (h4 : optStrFalsy rq.environment = true)
    (h5 : rq.inlineSegmentConstraints = false) :
    prepQuery rq = .ok emptyQuery := by
  simp [prepQuery, h1, h2, h3, h4, h5]

/-- Witness for C6's amended theorem at a concrete input: an empty-string
tag filter, an absent project filter, an empty-string name prefix and no
environment short-circuit to the canonical empty query. -/
theorem prepQuery_empty_shortcircuit_witness :
    prepQuery { tag := .scalar "", project := .absent, namePrefixParam := some ""
                environment := none, inlineSegmentConstraints := false } = .ok emptyQuery :=
  prepQuery_empty_shortcircuit
    { tag := .scalar "", project := .absent, namePrefixParam := some ""
      environment := none, inlineSegmentConstraints := false }
    (by decide) (by decide) (by decide) (by decide) (by decide)

/-- C7: for every request whose caller is an API user, when the token is
restricted to a specific project set (not the all-projects sentinel) the
normalized descriptor's project filter equals that restricted set
regardless of any client-supplied project filter (override, not union);
and when the token is scoped to a single (non-`ALL`, non-empty) environment,
that environment replaces any client-supplied environment. -/
theorem resolveQuery_apiuser_override (u : ApiUserT) (cq : ClientQuery) (sup : Bool)
    (inm : Option String) (pq : PreparedQuery)
    (hq : resolveQuery { user := .apiUser u, query := cq
                         supportsSegmentsSpec := sup, ifNoneMatch := inm } = .ok pq) :
    (isAllProjects u.projects = false → pq.project = some u.projects) ∧
    (u.environment ≠ ALL → u.environment ≠ "" → pq.environment = some u.environment) := by
  simp only [resolveQuery] at hq
  obtain ⟨hproj, henv⟩ := prepQuery_ok_fields _ _ hq
  constructor
  · intro hall
    exact hproj u.projects (by simp [resolveQueryRaw, hall])
  · intro hA hne
    exact henv u.environment (by simp [resolveQueryRaw, beq_eq_false_iff_ne.mpr hA]) hne

/-- Witness for C7 at a concrete input: a token restricted to projects
`["A", "B"]` and environment `"production"`, with the client asking for
project `["C"]` and environment `"dev"`, yields a descriptor with project
`["A", "B"]` and environment `"production"`. -/
theorem resolveQuery_apiuser_override_witness :
    (isAllProjects (["A", "B"] : List String) = false →
      ({ tag := none, project := some ["A", "B"], namePrefixParam := none
         environment := some "production"
         inlineSegmentConstraints := some false } : PreparedQuery).project
        = some ["A", "B"]) ∧
    (("production" : String) ≠ ALL → ("production" : String) ≠ "" →
      ({ tag := none, project := some ["A", "B"], namePrefixParam := none
         environment := some "production"
         inlineSegmentConstraints := some false } : PreparedQuery).environment
        = some "production") :=
  resolveQuery_apiuser_override { projects := ["A", "B"], environment := "production" }
    { tag := .absent, project := .list ["C"], namePrefixParam := none
      environment := some "dev" }
    true none
    { tag := none, project := some ["A", "B"], namePrefixParam := none
      environment := some "production", inlineSegmentConstraints := some false }
    (by decide)

theorem lookupEntry_filter_ne (l : List (String × EntryInfo)) (key : String) :
    lookupEntry (l.filter (fun e => !(e.1 == key))) key = none := by
  induction l with
  | nil => rfl
  | cons e rest ih =>
    by_cases hk : e.1 = key
    · simp [List.filter, hk, ih]
    · have hb : (e.1 == key) = false := beq_eq_false_iff_ne.mpr hk
      simp [List.filter, hb, lookupEntry, hk, ih]

/-- C8: the resolution performed by `resolveFeaturesAndSegments` evaluates
both store reads (features and active segments) and succeeds with the pair
of both results iff both succeed; if either store read fails, the whole
resolution fails with that error — no partial result.  Moreover a rejected
shared resolution leaves no cache entry for its key (`rejectSettle`), so
the next request retries cleanly. -/
theorem resolve_all_or_nothing (gcf : Option PreparedQuery → Except StoreError (List Feature))
    (ga : Except StoreError (List Segment)) (q : Option PreparedQuery)
    (st : MemoState) (key : String) :
    (∀ fs sg, gcf q = .ok fs → ga = .ok sg →
      resolveFeaturesAndSegments gcf ga q = .ok (fs, sg)) ∧
    (∀ e, gcf q = .error e → resolveFeaturesAndSegments gcf ga q = .error e) ∧
    (∀ fs e, gcf q = .ok fs → ga = .error e → resolveFeaturesAndSegments gcf ga q = .error e) ∧
    ((∃ p, resolveFeaturesAndSegments gcf ga q = .ok p) ↔
      ((∃ fs, gcf q = .ok fs) ∧ (∃ sg, ga = .ok sg))) ∧
    lookupEntry (rejectSettle st key).entries key = none := by
  refine ⟨?_, ?_, ?_, ?_, lookupEntry_filter_ne st.entries key⟩
  · intro fs sg h1 h2
    simp [resolveFeaturesAndSegments, h1, h2]
  · intro e h1
    simp [resolveFeaturesAndSegments, h1]
  · intro fs e h1 h2
    simp [resolveFeaturesAndSegments, h1, h2]
  · constructor
    · rintro ⟨p, hp⟩
      rcases h1 : gcf q with e | fs <;> rcases h2 : ga with e2 | sg <;>
        simp [resolveFeaturesAndSegments, h1, h2] at hp ⊢
    · rintro ⟨⟨fs, h1⟩, ⟨sg, h2⟩⟩
      exact ⟨(fs, sg), by simp [resolveFeaturesAndSegments, h1, h2]⟩

/-- Witness for C8 at a concrete input: with both stores succeeding, the
resolution returns the pair of both results. -/
theorem resolve_all_or_nothing_witness :
    resolveFeaturesAndSegments (fun _ => .ok [{ name := "f1", enabled := true }])
        (.ok [{ segmentId := 1 }]) (some emptyQuery)
      = .ok ([{ name := "f1", enabled := true }], [{ segmentId := 1 }]) :=
  (resolve_all_or_nothing (fun _ => .ok [{ name := "f1", enabled := true }])
      (.ok [{ segmentId := 1 }]) (some emptyQuery) initialMemoState "k").1
    [{ name := "f1", enabled := true }] [{ segmentId := 1 }] rfl rfl

/-- C9: the single-feature endpoint returns, with status 200, a feature
whose name equals the requested name exactly when one exists in the
filtered store result, and fails with a not-found error when no feature
with that exact name exists after filtering. -/
theorem getFeatureToggle_exact_name (store : PreparedQuery → List Feature) (req : Req)
    (featureName : String) (st : MemoState) (q : PreparedQuery)
    (hq : resolveQuery req = .ok q) :
    ((∀ t ∈ store { q with namePrefixParam := some featureName }, t.name ≠ featureName) →
      (getFeatureToggle store req featureName st).1
        = .error (.notFound ("Could not find feature toggle " ++ featureName))) ∧
    ((∃ t ∈ store { q with namePrefixParam := some featureName }, t.name = featureName) →
      ∃ out, (getFeatureToggle store req featureName st).1 = .ok out ∧
        out.body.name = featureName ∧
        out.body ∈ store { q with namePrefixParam := some featureName } ∧
        out.status = 200) := by
  rcases hfind : (store { q with namePrefixParam := some featureName }).find?
      (fun t => t.name == featureName) with _ | t
  · constructor
    · intro _
      simp [getFeatureToggle, hq, hfind]
    · rintro ⟨t, ht, hname⟩
      exfalso
      have hnone := List.find?_eq_none.mp hfind t ht
      simp [hname] at hnone
  · have hname : t.name = featureName := by
      have := List.find?_some hfind
      simpa using this
    have hmem : t ∈ store { q with namePrefixParam := some featureName } :=
      List.mem_of_find?_eq_some hfind
    constructor
    · intro hall
      exact absurd hname (hall t hmem)
    · intro _
      exact ⟨{ status := 200, etagHeader := none, body := t },
        by simp [getFeatureToggle, hq, hfind], hname, hmem, rfl⟩

/-- Witness for C9 at a concrete input: with the store returning two
features, the endpoint answers 200 with exactly the feature named
`"target"`. -/
theorem getFeatureToggle_exact_name_witness :
    ∃ out,
      (getFeatureToggle
          (fun _ => [{ name := "other", enabled := false }, { name := "target", enabled := true }])
          { user := .other
            query := { tag := .absent, project := .absent, namePrefixParam := none
                       environment := none }
            supportsSegmentsSpec := true, ifNoneMatch := none }
          "target" initialMemoState).1 = .ok out ∧
      out.body.name = "target" ∧
      out.body ∈ [({ name := "other", enabled := false } : Feature),
                  { name := "target", enabled := true }] ∧
      out.status = 200 :=
  (getFeatureToggle_exact_name
      (fun _ => [{ name := "other", enabled := false }, { name := "target", enabled := true }])
      { user := .other
        query := { tag := .absent, project := .absent, namePrefixParam := none
                   environment := none }
        supportsSegmentsSpec := true, ifNoneMatch := none }
      "target" initialMemoState emptyQuery (by decide)).2
    ⟨{ name := "target", enabled := true }, by simp, rfl⟩

/-- C10: the single-feature endpoint never touches the memoized resolver or
its cache (the memo state is returned unchanged), sets no ETag header and
never produces a not-modified response (every successful response has
status 200 and no validator header), and it queries the store directly with
the normalized query whose `namePrefix` has been replaced by the requested
feature name. -/
theorem getFeatureToggle_direct_no_etag (store : PreparedQuery → List Feature) (req : Req)
    (featureName : String) (st : MemoState) :
    (getFeatureToggle store req featureName st).2.1 = st ∧
    (∀ out, (getFeatureToggle store req featureName st).1 = .ok out →
      out.etagHeader = none ∧ out.status = 200) ∧
    (∀ q', q' ∈ (getFeatureToggle store req featureName st).2.2 →
      q'.namePrefixParam = some featureName) ∧
    (∀ q, resolveQuery req = .ok q →
      (getFeatureToggle store req featureName st).2.2
        = [{ q with namePrefixParam := some featureName }]) := by
  rcases hq : resolveQuery req with e | q0
  · refine ⟨by simp [getFeatureToggle, hq], ?_, ?_, ?_⟩
    · intro out hout
      simp [getFeatureToggle, hq] at hout
    · intro q' hq'
      simp [getFeatureToggle, hq] at hq'
    · intro q hq2
      simp at hq2
  · rcases hfind : (store { q0 with namePrefixParam := some featureName }).find?
        (fun t => t.name == featureName) with _ | t
    · refine ⟨by simp [getFeatureToggle, hq, hfind], ?_, ?_, ?_⟩
      · intro out hout
        simp [getFeatureToggle, hq, hfind] at hout
      · intro q' hq'
        simp [getFeatureToggle, hq, hfind] at hq'
        rw [hq']
      · intro q hq2
        injection hq2 with h
        subst h
        simp [getFeatureToggle, hq, hfind]
    · refine ⟨by simp [getFeatureToggle, hq, hfind], ?_, ?_, ?_⟩
      · intro out hout
        simp [getFeatureToggle, hq, hfind] at hout
        rw [← hout]
        exact ⟨rfl, rfl⟩
      · intro q' hq'
        simp [getFeatureToggle, hq, hfind] at hq'
        rw [hq']
      · intro q hq2
        injection hq2 with h
        subst h
        simp [getFeatureToggle, hq, hfind]

/-- Witness for C10 at a concrete input: the store-query list of a concrete
single-feature request is exactly the normalized query with `namePrefix`
replaced by the requested name. -/
theorem getFeatureToggle_direct_no_etag_witness :
    (getFeatureToggle (fun _ => ([] : List Feature))
        { user := .other
          query := { tag := .absent, project := .absent, namePrefixParam := some "ignored"
                     environment := none }
          supportsSegmentsSpec := true, ifNoneMatch := none }
        "myFeature" initialMemoState).2.2
      = [{ tag := none, project := none, namePrefixParam := some "myFeature"
           environment := none, inlineSegmentConstraints := some false }] :=
  (getFeatureToggle_direct_no_etag (fun _ => ([] : List Feature))
      { user := .other
        query := { tag := .absent, project := .absent, namePrefixParam := some "ignored"
                   environment := none }
        supportsSegmentsSpec := true, ifNoneMatch := none }
      "myFeature" initialMemoState).2.2.2
    { tag := none, project := none, namePrefixParam := some "ignored"
      environment := none, inlineSegmentConstraints := some false }
    (by decide)


